/-
Verification development for the Meteorological-Forecasting-Platform
repository.  The definitions below are shallow embeddings of the pandas /
python code of the repository (src/etl/processing.py, src/etl/ingestion.py,
src/schemas/weather.py, src/features/transformation.py,
src/modeling/base.py, src/modeling/trainers/rain.py,
pipelines/04_onestep_forecast.py, pipelines/05_recursive_forecast.py).
Missing values (NaN) are modelled as Option, numeric values as rationals.
-/
import Mathlib

/-! ## Basic pandas-style column operations on Option-valued series -/

/-- pandas Series.ffill with an explicit carried value: a missing cell takes
the most recent present value before it, if any. -/
def ffillGo (carry : Option ℚ) : List (Option ℚ) → List (Option ℚ)
  | [] => []
  | some v :: t => some v :: ffillGo (some v) t
  | none :: t => carry :: ffillGo carry t

/-- pandas Series.ffill (forward fill). -/
def ffill (xs : List (Option ℚ)) : List (Option ℚ) := ffillGo none xs

/-- pandas Series.bfill (backward fill): a missing cell takes the next
present value after it, if any. -/
def bfill : List (Option ℚ) → List (Option ℚ)
  | [] => []
  | some v :: t => some v :: bfill t
  | none :: t =>
    let t2 := bfill t
    t2.headD none :: t2

/-- pandas Series.fillna with a constant value. -/
def fillnaConst (v : ℚ) (xs : List (Option ℚ)) : List (Option ℚ) :=
  xs.map fun o => some (o.getD v)

/-- pandas Series.fillna with another series (processing.py line 223:
prec.fillna(om_prec)): cell-wise, keep the first series value where present,
otherwise take the second series value. -/
def fillnaFrom (xs ys : List (Option ℚ)) : List (Option ℚ) :=
  List.zipWith (fun p o => if p.isSome then p else o) xs ys

/-! ## Python float parsing (schemas/weather.py parse_float_spanish)

The validator calls the builtin float() on the cleaned string.  We model
finite decimal literals (optional sign, integer and fractional digits,
optional exponent); the special CPython spellings inf and nan and digit
underscores do not occur in the data handled by this repository. -/

/-- Numeric value of a digit list, most significant first, over ℚ. -/
def digitsVal (cs : List Char) : ℚ :=
  cs.foldl (fun a c => a * 10 + ((c.toNat - 48 : Nat) : ℚ)) 0

/-- Numeric value of a digit list as a natural number (for exponents). -/
def natDigitsVal (cs : List Char) : Nat :=
  cs.foldl (fun a c => a * 10 + (c.toNat - 48)) 0

/-- Split a char list into its leading digits and the rest. -/
def splitDigits (cs : List Char) : List Char × List Char :=
  (cs.takeWhile Char.isDigit, cs.dropWhile Char.isDigit)

/-- Parse an unsigned decimal mantissa: digits, digits.digits, digits. or
.digits.  Returns the value and the unconsumed remainder. -/
def parseUnsignedDec (cs : List Char) : Option (ℚ × List Char) :=
  let (ip, r1) := splitDigits cs
  match r1 with
  | '.' :: r2 =>
    let (fp, r3) := splitDigits r2
    if ip.isEmpty && fp.isEmpty then none
    else some (digitsVal ip + digitsVal fp / ((10 : ℚ) ^ fp.length), r3)
  | _ => if ip.isEmpty then none else some (digitsVal ip, r1)

/-- Parse the optional exponent part; succeeds only if the whole remainder
is consumed (as the builtin float() rejects trailing junk). -/
def parseExpPart (cs : List Char) : Option Int :=
  match cs with
  | [] => some 0
  | c :: r =>
    if c = 'e' || c = 'E' then
      let sr : Int × List Char :=
        match r with
        | '+' :: t => (1, t)
        | '-' :: t => (-1, t)
        | _ => (1, r)
      let (ds, r2) := splitDigits sr.2
      if ds.isEmpty || !r2.isEmpty then none
      else some (sr.1 * (natDigitsVal ds : Int))
    else none

/-- Apply a base-ten exponent to a mantissa. -/
def applyExp (e : Int) (m : ℚ) : ℚ :=
  if 0 ≤ e then m * (10 : ℚ) ^ e.toNat else m / (10 : ℚ) ^ (-e).toNat

/-- Strip leading and trailing whitespace from a char list (python strip). -/
def stripWs (cs : List Char) : List Char :=
  ((cs.dropWhile Char.isWhitespace).reverse.dropWhile Char.isWhitespace).reverse

/-- Python float() on an already stripped char list. -/
def pyFloatCore (cs : List Char) : Option ℚ :=
  let sc : ℚ × List Char :=
    match cs with
    | '+' :: r => (1, r)
    | '-' :: r => (-1, r)
    | _ => (1, cs)
  match parseUnsignedDec sc.2 with
  | none => none
  | some (m, r) => (parseExpPart r).map fun e => applyExp e (sc.1 * m)

/-- Python float(s) for a string, including the whitespace stripping the
builtin performs. -/
def pyFloatOfString (s : String) : Option ℚ :=
  pyFloatCore (stripWs s.data)

/-- Raw python value arriving from the AEMET API for a numeric field. -/
inductive PyValue where
  | pyNone
  | pyFloat (q : ℚ)
  | pyInt (n : Int)
  | pyStr (s : String)
  | pyOther
deriving DecidableEq

/-- Replace every comma by a dot (python str.replace on a 1-char needle). -/
def replaceCommaDot (cs : List Char) : List Char :=
  cs.map fun c => if c = ',' then '.' else c

/-- WeatherRecord.parse_float_spanish (schemas/weather.py lines 50-84):
None and the empty string give missing; numbers pass through; strings are
comma-to-dot cleaned and stripped, the sentinel Ip (case-insensitive) maps
to 0.0, and anything the float() builtin rejects gives missing. -/
def parse_float_spanish (v : PyValue) : Option ℚ :=
  match v with
  | .pyNone => none
  | .pyFloat q => some q
  | .pyInt n => some (n : ℚ)
  | .pyStr s =>
    if s = "" then none
    else
      let cs := stripWs (replaceCommaDot s.data)
      if cs.map Char.toLower = ['i', 'p'] then some 0
      else pyFloatCore cs
  | .pyOther => none

/-! ## Linear interpolation with a gap limit
(processing.py line 238: Series.interpolate(method="linear", limit=7))

Pandas first interpolates over all internal gaps (and pads past the last
present value, as the numpy interpolation clamps), then re-masks every
missing run beyond the first limit cells of the run, in the default
forward direction; cells before the first present value are never filled. -/

/-- Index and value of the nearest present cell at or before position i. -/
def prevAnchor (xs : List (Option ℚ)) (i : Nat) : Option (Nat × ℚ) :=
  (List.range (i + 1)).reverse.findSome? fun j =>
    match xs.getD j none with
    | some v => some (j, v)
    | none => none

/-- Index and value of the nearest present cell at or after position i. -/
def nextAnchor (xs : List (Option ℚ)) (i : Nat) : Option (Nat × ℚ) :=
  (List.range' i (xs.length - i)).findSome? fun j =>
    match xs.getD j none with
    | some v => some (j, v)
    | none => none

/-- Value of cell i after Series.interpolate(method="linear", limit=L). -/
def interpValue (L : Nat) (xs : List (Option ℚ)) (i : Nat) : Option ℚ :=
  match xs.getD i none with
  | some v => some v
  | none =>
    match prevAnchor xs i with
    | none => none
    | some (j, a) =>
      if i - j ≤ L then
        match nextAnchor xs i with
        | some (m, b) => some (a + (b - a) * ((i : ℚ) - (j : ℚ)) / ((m : ℚ) - (j : ℚ)))
        | none => some a
      else none

/-- Series.interpolate(method="linear", limit=L) on a whole column. -/
def interpolateLimit (L : Nat) (xs : List (Option ℚ)) : List (Option ℚ) :=
  (List.range xs.length).map (interpValue L xs)

/-! ## Climatological fill
(processing.py lines 243-254: groupby(dayofyear).transform("mean") then
fillna, then the same with groupby(month)) -/

/-- Mean of the present values of xs whose parallel key equals k (the
pandas groupby mean skips missing values; an all-missing group stays
missing). -/
def groupMean (key : List Nat) (xs : List (Option ℚ)) (k : Nat) : Option ℚ :=
  let vals := (key.zip xs).filterMap fun p => if p.1 = k then p.2 else none
  if vals.isEmpty then none else some (vals.sum / (vals.length : ℚ))

/-- Fill missing cells with the mean of their key group computed over the
current column (the source computes the group means on the column as it
stands after the preceding fill step). -/
def climFill (key : List Nat) (xs : List (Option ℚ)) : List (Option ℚ) :=
  (key.zip xs).map fun p =>
    match p.2 with
    | some v => some v
    | none => groupMean key xs p.1

/-! ## Per-column imputation of the fusion engine
(processing.py lines 232-267) -/

/-- Result of processing one station column: the estimation flags and the
imputed values. -/
structure ImputedColumn where
  est : List Bool
  vals : List (Option ℚ)
deriving DecidableEq

/-- Lines 232-258, one continuous column: flag the missing mask, linear
interpolation limited to 7, then (when cells are still missing) the
day-of-year climatological fill followed by the month fill, and finally
ffill, bfill and the fixed default. -/
def imputeColumn (doy month : List Nat) (fillVal : ℚ) (xs : List (Option ℚ)) :
    ImputedColumn :=
  let est := xs.map Option.isNone
  let x1 := interpolateLimit 7 xs
  let x2 :=
    if x1.any Option.isNone then climFill month (climFill doy x1) else x1
  { est := est, vals := fillnaConst fillVal (bfill (ffill x2)) }

/-- The nine continuous variables imputed by the loop of line 232. -/
def cols_continuous : List String :=
  ["tmed", "tmin", "tmax", "hrMedia", "velmedia", "racha", "presion", "nubes", "sol"]

/-- Line 257: the fixed physical default used as final safety net. -/
def fillValFor (col : String) : ℚ := if col = "presion" then 1013 else 0

/-- Lines 222-223 and 260-262, the precipitation column: first the hybrid
fill from the secondary source, then the flag is taken from the already
hybrid-filled column, then fillna(0.0). -/
def precPipeline (prec om_prec : List (Option ℚ)) : ImputedColumn :=
  let prec1 := fillnaFrom prec om_prec
  { est := prec1.map Option.isNone, vals := fillnaConst 0 prec1 }

/-- Lines 264-267, the wind-direction column: the flag is taken from the
raw string column, then pd.to_numeric(errors="coerce") turns non-numeric
entries into missing, then ffill, bfill, fillna(0). -/
def dirPipeline (dir : List (Option String)) : ImputedColumn :=
  let est := dir.map Option.isNone
  let coerced := dir.map fun o => o.bind pyFloatOfString
  { est := est, vals := fillnaConst 0 (bfill (ffill coerced)) }

/-! ## Calendar reindexing and the left-join with the secondary source
(processing.py lines 149-227) -/

/-- pd.date_range(start, end, freq="D") as day numbers: days consecutive
calendar days from start. -/
def calendarRange (start days : Nat) : List Nat :=
  (List.range days).map fun k => start + k

/-- Line 176: sort_values("fecha"); rows are (day number, payload). -/
def sortByDate {α : Type} (rows : List (Nat × α)) : List (Nat × α) :=
  List.insertionSort (fun a b => a.1 ≤ b.1) rows

/-- Line 176: drop_duplicates(subset=["fecha"]), keeping the first row of
each date in the current order. -/
def dedupByDate {α : Type} (rows : List (Nat × α)) : List (Nat × α) :=
  rows.foldl (fun acc r => if acc.any (fun s => s.1 = r.1) then acc else acc ++ [r]) []

/-- Line 182: set_index("fecha").reindex(global_idx); every calendar day
becomes a row, days with no record become all-missing rows.  (Pandas
raises on a duplicated index, which is why the source deduplicates first;
the lookup model keeps the first match.) -/
def reindexOnto {α : Type} (cal : List Nat) (rows : List (Nat × α)) :
    List (Nat × Option α) :=
  cal.map fun d => (d, (rows.find? fun r => r.1 = d).map Prod.snd)

/-- Lines 212-217: pd.merge(left, right, on="fecha", how="left"); a left
row with no match is kept with missing right columns, a left row with
matches is repeated once per match, in order. -/
def leftJoinByDate {α β : Type} (left : List (Nat × α)) (right : List (Nat × β)) :
    List (Nat × α × Option β) :=
  left.flatMap fun l =>
    let ms := right.filter fun r => r.1 = l.1
    if ms.isEmpty then [(l.1, l.2, none)]
    else ms.map fun r => (l.1, l.2, some r.2)

/-- The date column of one station frame after the steps of lines 174-218:
sort, deduplicate, reindex onto the global calendar, and (when the
secondary fetch returned rows) left-join with the secondary frame. -/
def processStationDates {α β : Type} (raw : List (Nat × α)) (om : List (Nat × β))
    (cal : List Nat) : List Nat :=
  let st := reindexOnto cal (dedupByDate (sortByDate raw))
  if om.isEmpty then st.map Prod.fst
  else (leftJoinByDate st om).map Prod.fst

/-- Date construction of the Open-Meteo client (etl/clients/openmeteo.py):
np.arange(start, end, interval) of unix timestamps, shifted and normalized
to days; with a positive daily interval the resulting day numbers form the
arithmetic progression below. -/
def omFetchDates (startDay n : Nat) : List Nat :=
  (List.range n).map fun k => startDay + k

/-! ## Feature engineering (features/transformation.py) -/

/-- groupby(group).shift(k) on one group (create_lags, lines 34-46): the
first min(k, length) cells become missing and the values move k rows
later, dropping what falls off the end. -/
def seriesShift (k : Nat) (xs : List (Option ℚ)) : List (Option ℚ) :=
  List.replicate (min k xs.length) none ++ xs.take (xs.length - k)

/-- rolling(w).mean() on one group (create_rolling_stats, lines 48-62):
the trailing window of w rows ending at the current row; missing while
fewer than w rows exist or while the window contains a missing value
(the default min_periods equals the window size). -/
def rollingMean (w : Nat) (xs : List (Option ℚ)) : List (Option ℚ) :=
  (List.range xs.length).map fun i =>
    if i + 1 < w then none
    else
      let win := (xs.drop (i + 1 - w)).take w
      if win.all Option.isSome then some (win.reduceOption.sum / (w : ℚ))
      else none

/-- One column of a station-grouped frame: the station key and the series
of that station, already sorted by date inside the group. -/
abbrev GroupedColumn : Type := List (String × List (Option ℚ))

/-- FeatureEngineer.create_lags on one column for one lag: the shift is
applied inside each station group separately. -/
def create_lags_frame (k : Nat) (fr : GroupedColumn) : GroupedColumn :=
  fr.map fun g => (g.1, seriesShift k g.2)

/-- FeatureEngineer.create_rolling_stats on one column for one window: the
rolling mean is applied inside each station group separately. -/
def create_rolling_frame (w : Nat) (fr : GroupedColumn) : GroupedColumn :=
  fr.map fun g => (g.1, rollingMean w g.2)

/-! ## Rain trainer target construction
(modeling/trainers/rain.py lines 88-97) -/

/-- The wet-day threshold of RainClassifier.run_training (0.1 mm). -/
def rainThreshold : ℚ := 1 / 10

/-- groupby("indicativo")["prec"].shift(-1) on one station: each cell takes
the next cell of the group, the last cell becomes missing. -/
def shiftMinusOne (xs : List ℚ) : List (Option ℚ) :=
  (xs.drop 1).map some ++ List.replicate (min 1 xs.length) none

/-- Line 92-94: (shift(-1) > THRESHOLD).astype(int).  Pandas comparison of
a missing cell with a number yields False, and the integer cast leaves an
integer column with no missing marker; 1 codes a wet next day. -/
def rainTargetColumn (prec : List ℚ) : List Int :=
  (shiftMinusOne prec).map fun o =>
    match o with
    | some v => if rainThreshold < v then 1 else 0
    | none => 0

/-- dropna(subset=[col]) over rows whose subset column is Option-valued. -/
def dropnaSubset {α β : Type} (rows : List (α × Option β)) : List (α × β) :=
  rows.filterMap fun r => r.2.map fun b => (r.1, b)

/-- Lines 92-97 for one station: build the target column and apply
dropna(subset=["target_rain"]).  The target column is an integer column
after astype(int), so every cell is wrapped as present before the drop. -/
def rainSupervised (prec : List ℚ) : List (ℚ × Int) :=
  dropnaSubset ((prec.zip (rainTargetColumn prec)).map fun r => (r.1, some r.2))

/-! ## Model persistence (modeling/base.py lines 145-156 and
modeling/trainers/rain.py lines 151-154) -/

/-- Stand-in for a trained LightGBM booster object. -/
structure LightGBMBooster where
  boosterId : Nat
deriving DecidableEq

/-- What joblib.dump wrote for one target: either the bare booster or the
dict holding the booster together with its ordered feature-name list. -/
inductive ModelArtifact where
  | plain (model : LightGBMBooster)
  | record (model : LightGBMBooster) (feature_names : List String)
deriving DecidableEq

/-- BaseModel._save_to_disk (base.py lines 145-156): every target trained
through train_lgbm persists the dict with the model and feature_names. -/
def save_to_disk (model : LightGBMBooster) (feature_names : List String) :
    ModelArtifact :=
  .record model feature_names

/-- RainClassifier.run_training persistence (rain.py lines 151-154):
joblib.dump(model, path) writes the bare booster. -/
def rain_persist (model : LightGBMBooster) : ModelArtifact :=
  .plain model

/-- Feature-name list recoverable from a reloaded artifact. -/
def artifactFeatureNames : ModelArtifact → Option (List String)
  | .plain _ => none
  | .record _ fs => some fs

/-- Loader of both inference pipelines (04_onestep_forecast.py lines 81-86,
05_recursive_forecast.py lines 37-40): joblib.load, then the isinstance
dict check; a non-dict artifact is skipped. -/
def loadForInference : ModelArtifact → Option (LightGBMBooster × List String)
  | .plain _ => none
  | .record m fs => some (m, fs)

/-! ## Inference-time feature padding
(04_onestep_forecast.py lines 88-92, 05_recursive_forecast.py lines 126-131) -/

/-- For each expected feature name absent from the frame, add a column of
the neutral default 0 (the loop "if f not in X.columns: X[f] = 0"). -/
def addMissingFeatures (X : List (String × ℚ)) (req : List String) :
    List (String × ℚ) :=
  req.foldl (fun acc f => if (acc.lookup f).isSome then acc else acc ++ [(f, 0)]) X

/-- Column selection X[feat_names]: each requested name resolved against
the frame; an unresolved name would be the KeyError case. -/
def selectFeatures (X : List (String × ℚ)) (req : List String) :
    List (Option ℚ) :=
  req.map fun f => X.lookup f

/-- The full padding-then-selection step both forecasters run before
model.predict. -/
def buildPredictionInput (X : List (String × ℚ)) (req : List String) :
    List (Option ℚ) :=
  selectFeatures (addMissingFeatures X req) req

/-! ## Ingestion consolidation (etl/ingestion.py consolidate_year,
lines 86-159) -/

/-- One raw batch record; only its date key matters to consolidation. -/
structure RawBatchRecord where
  fecha : String
  payload : Nat
deriving DecidableEq

/-- One partial batch file: content is missing when json.load fails or the
parsed content is not a list (such files are read-skipped, not deleted). -/
structure PartFile where
  name : String
  content : Option (List RawBatchRecord)
deriving DecidableEq

/-- The consolidated yearly file on disk. -/
inductive MergedFile where
  | absent
  | ok (records : List RawBatchRecord)
  | corrupt
deriving DecidableEq

/-- On-disk state of one station-year folder. -/
structure StoreState where
  partials : List PartFile
  merged : MergedFile
deriving DecidableEq

/-- Python dict comprehension keyed by fecha (line 131): keys keep the
order of their first occurrence, each key holds the last record with that
date (last write wins). -/
def lastWithFecha (rs : List RawBatchRecord) (d : String) : Option RawBatchRecord :=
  rs.reverse.find? fun r => r.fecha = d

/-- Dates in order of first occurrence. -/
def firstOccurrenceKeys (rs : List RawBatchRecord) : List String :=
  rs.foldl (fun acc r => if acc.contains r.fecha then acc else acc ++ [r.fecha]) []

/-- The deduplicated record list of line 131-132. -/
def pyDictLastWins (rs : List RawBatchRecord) : List RawBatchRecord :=
  (firstOccurrenceKeys rs).filterMap (lastWithFecha rs)

/-- Lines 117-123: the files whose json content was read successfully
(files_processed); unreadable ones are skipped and never deleted. -/
def readableFiles (files : List PartFile) : List PartFile :=
  files.filter fun f => f.content.isSome

/-- Line 114-123: all_records, the concatenation of the readable partial
contents in file order. -/
def allRecordsOf (files : List PartFile) : List RawBatchRecord :=
  (readableFiles files).flatMap fun f => f.content.getD []

/-- Lines 130-135: cleaned_list, deduplicated by date with last write
winning and sorted chronologically by the date string. -/
def consolidatedRecords (files : List PartFile) : List RawBatchRecord :=
  List.insertionSort (fun a b => a.fecha ≤ b.fecha) (pyDictLastWins (allRecordsOf files))

/-- DataIngestion.consolidate_year: read the readable partials, deduplicate
by date, sort by date, then try to write the merged file; the partials
that were read are unlinked only inside the success branch of the write,
while a failed write (modelled by writeOk = false) leaves every partial in
place and at most a truncated merged file behind. -/
def consolidate_year (writeOk : Bool) (s : StoreState) : StoreState :=
  if s.partials.isEmpty then s
  else if (allRecordsOf s.partials).isEmpty then s
  else if writeOk then
    { partials := s.partials.filter fun f => ¬ (readableFiles s.partials).contains f
      merged := .ok (consolidatedRecords s.partials) }
  else
    { partials := s.partials, merged := .corrupt }

/-- Sample readable partial file used as concrete witness input. -/
def samplePartA : PartFile :=
  ⟨"part_20200101_20200115.json", some [⟨"2020-01-02", 2⟩, ⟨"2020-01-01", 1⟩]⟩

/-- Sample unreadable partial file used as concrete witness input. -/
def samplePartBad : PartFile := ⟨"part_bad.json", none⟩

/-- Sample station-year folder state used as concrete witness input. -/
def sampleStore : StoreState := ⟨[samplePartA, samplePartBad], .absent⟩

/-! ## Helper lemmas -/

theorem lookup_append_q (l₁ l₂ : List (String × ℚ)) (a : String) :
    (l₁ ++ l₂).lookup a = ((l₁.lookup a).orElse fun _ => l₂.lookup a) := by
  induction l₁ with
  | nil => simp [List.lookup]
  | cons h t ih =>
    obtain ⟨k, v⟩ := h
    cases hbeq : a == k with
    | true => simp [List.lookup, hbeq]
    | false => simp [List.lookup, hbeq, ih]

theorem addMissing_unfold (X : List (String × ℚ)) (r : String) (rs : List String) :
    addMissingFeatures X (r :: rs) =
      addMissingFeatures (if (X.lookup r).isSome then X else X ++ [(r, 0)]) rs := rfl

theorem addMissing_preserve (req : List String) :
    ∀ (X : List (String × ℚ)) (f : String) (v : ℚ), X.lookup f = some v →
      (addMissingFeatures X req).lookup f = some v := by
  induction req with
  | nil => intro X f v h; exact h
  | cons r rs ih =>
    intro X f v h
    rw [addMissing_unfold]
    apply ih
    split
    · exact h
    · rw [lookup_append_q, h]
      rfl

theorem addMissing_fills (req : List String) :
    ∀ (X : List (String × ℚ)) (f : String), f ∈ req → X.lookup f = none →
      (addMissingFeatures X req).lookup f = some 0 := by
  induction req with
  | nil => intro X f hf _; cases hf
  | cons r rs ih =>
    intro X f hf h
    rw [addMissing_unfold]
    by_cases hrf : r = f
    · subst hrf
      rw [if_neg (by simp [h])]
      have hl : (X ++ [(r, 0)]).lookup r = some 0 := by
        rw [lookup_append_q, h]
        simp [List.lookup]
      exact addMissing_preserve rs _ r 0 hl
    · rcases List.mem_cons.mp hf with h1 | h2
      · exact absurd h1.symm hrf
      · apply ih _ f h2
        split
        · exact h
        · rw [lookup_append_q, h]
          have hb : (f == r) = false :=
            beq_eq_false_iff_ne.mpr fun hfr => hrf hfr.symm
          simp [List.lookup, hb]

theorem addMissing_isSome (req : List String) (X : List (String × ℚ))
    (f : String) (hf : f ∈ req) :
    ((addMissingFeatures X req).lookup f).isSome = true := by
  cases h : X.lookup f with
  | none => rw [addMissing_fills req X f hf h]; rfl
  | some v => rw [addMissing_preserve req X f v h]; rfl

theorem zip_getElem? {α β : Type} (as : List α) (bs : List β) :
    ∀ (i : Nat) (ha : i < as.length) (hb : i < bs.length),
      (as.zip bs)[i]? = some (as.get ⟨i, ha⟩, bs.get ⟨i, hb⟩) := by
  induction as generalizing bs with
  | nil => intro i ha _; cases ha
  | cons a at_ ih =>
    intro i ha hb
    cases bs with
    | nil => cases hb
    | cons b bt =>
      cases i with
      | zero => simp
      | succ j =>
        have := ih bt j (Nat.lt_of_succ_lt_succ ha) (Nat.lt_of_succ_lt_succ hb)
        simpa using this

theorem interpolateLimit_length (L : Nat) (xs : List (Option ℚ)) :
    (interpolateLimit L xs).length = xs.length := by
  simp [interpolateLimit]

theorem interpolateLimit_getElem? (L : Nat) (xs : List (Option ℚ)) (i : Nat)
    (h : i < xs.length) :
    (interpolateLimit L xs)[i]? = some (interpValue L xs i) := by
  rw [interpolateLimit, List.getElem?_map, List.getElem?_range h]
  rfl

theorem interp_preserve (L : Nat) (xs : List (Option ℚ)) (i : Nat) (v : ℚ)
    (h : xs[i]? = some (some v)) :
    (interpolateLimit L xs)[i]? = some (some v) := by
  have hi : i < xs.length := (List.getElem?_eq_some_iff.mp h).1
  rw [interpolateLimit_getElem? L xs i hi, interpValue,
    List.getD_eq_getElem?_getD, h]
  rfl

theorem climFill_length (key : List Nat) (xs : List (Option ℚ)) :
    (climFill key xs).length = min key.length xs.length := by
  simp [climFill]

theorem climFill_preserve (key : List Nat) (xs : List (Option ℚ)) (i : Nat) (v : ℚ)
    (h : xs[i]? = some (some v)) (hk : i < key.length) :
    (climFill key xs)[i]? = some (some v) := by
  have hi : i < xs.length := (List.getElem?_eq_some_iff.mp h).1
  rw [climFill, List.getElem?_map, zip_getElem? key xs i hk hi]
  have hv : xs[i] = some v := by
    have := List.getElem?_eq_some_iff.mp h
    simpa using this.2
  simp [hv]

theorem ffillGo_length (c : Option ℚ) (xs : List (Option ℚ)) :
    (ffillGo c xs).length = xs.length := by
  induction xs generalizing c with
  | nil => rfl
  | cons x t ih =>
    cases x with
    | some v => simpa [ffillGo] using ih (some v)
    | none => simpa [ffillGo] using ih c

theorem ffillGo_preserve (xs : List (Option ℚ)) :
    ∀ (c : Option ℚ) (i : Nat) (v : ℚ), xs[i]? = some (some v) →
      (ffillGo c xs)[i]? = some (some v) := by
  induction xs with
  | nil => intro c i v h; simp at h
  | cons x t ih =>
    intro c i v h
    cases x with
    | some w =>
      cases i with
      | zero => simpa [ffillGo] using h
      | succ j =>
        simp only [ffillGo, List.getElem?_cons_succ]
        exact ih (some w) j v (by simpa using h)
    | none =>
      cases i with
      | zero => simp at h
      | succ j =>
        simp only [ffillGo, List.getElem?_cons_succ]
        exact ih c j v (by simpa using h)

theorem bfill_length (xs : List (Option ℚ)) :
    (bfill xs).length = xs.length := by
  induction xs with
  | nil => rfl
  | cons x t ih =>
    cases x with
    | some v => simpa [bfill] using ih
    | none => simpa [bfill] using ih

theorem bfill_preserve (xs : List (Option ℚ)) :
    ∀ (i : Nat) (v : ℚ), xs[i]? = some (some v) →
      (bfill xs)[i]? = some (some v) := by
  induction xs with
  | nil => intro i v h; simp at h
  | cons x t ih =>
    intro i v h
    cases x with
    | some w =>
      cases i with
      | zero => simpa [bfill] using h
      | succ j =>
        simp only [bfill, List.getElem?_cons_succ]
        exact ih j v (by simpa using h)
    | none =>
      cases i with
      | zero => simp at h
      | succ j =>
        simp only [bfill, List.getElem?_cons_succ]
        exact ih j v (by simpa using h)

theorem fillnaConst_preserve (fv : ℚ) (xs : List (Option ℚ)) (i : Nat) (v : ℚ)
    (h : xs[i]? = some (some v)) :
    (fillnaConst fv xs)[i]? = some (some v) := by
  rw [fillnaConst, List.getElem?_map, h]
  rfl

theorem take_agree_getElem? {α : Type} (xs ys : List α) (i : Nat)
    (h : xs.take (i + 1) = ys.take (i + 1)) :
    ∀ j, j ≤ i → xs[j]? = ys[j]? := by
  intro j hj
  have hx : (xs.take (i + 1))[j]? = xs[j]? := by
    rw [List.getElem?_take]
    simp [Nat.lt_succ_of_le hj]
  have hy : (ys.take (i + 1))[j]? = ys[j]? := by
    rw [List.getElem?_take]
    simp [Nat.lt_succ_of_le hj]
  rw [← hx, ← hy, h]

theorem seriesShift_getElem (k : Nat) (xs : List (Option ℚ)) (i : Nat)
    (hi : i < xs.length) :
    (seriesShift k xs)[i]? = some (if k ≤ i then xs.getD (i - k) none else none) := by
  rw [seriesShift]
  by_cases hik : i < min k xs.length
  · rw [List.getElem?_append_left (by simpa using hik)]
    have hk : ¬ k ≤ i := by omega
    simp [List.getElem?_replicate, hik, hk]
  · have hmin : min k xs.length ≤ i := by omega
    have hk : k ≤ i := by omega
    have hkn : min k xs.length = k := by omega
    rw [List.getElem?_append_right (by simpa using hmin)]
    rw [List.getElem?_take]
    have hlt : i - (List.replicate (min k xs.length) (none : Option ℚ)).length <
        xs.length - k := by
      simp [hkn]
      omega
    rw [if_pos hlt]
    simp only [List.length_replicate, hkn]
    rw [List.getD_eq_getElem?_getD]
    have hbound : i - k < xs.length := by omega
    rw [List.getElem?_eq_getElem hbound]
    simp [hk]

theorem slice_eq_map_getD (xs : List (Option ℚ)) (m w : Nat)
    (h : m + w ≤ xs.length) :
    (xs.drop m).take w = (List.range w).map fun j => xs.getD (m + j) none := by
  apply List.ext_getElem?
  intro j
  rw [List.getElem?_take, List.getElem?_map]
  by_cases hj : j < w
  · rw [if_pos hj, List.getElem?_drop, List.getElem?_range hj]
    have hb : m + j < xs.length := by omega
    rw [List.getElem?_eq_getElem hb]
    show some xs[m + j] = some (xs.getD (m + j) none)
    rw [List.getD_eq_getElem?_getD, List.getElem?_eq_getElem hb]
    rfl
  · rw [if_neg hj]
    rw [List.getElem?_eq_none (show (List.range w).length ≤ j by simpa using hj)]
    rfl

theorem rollingMean_getElem (w : Nat) (xs : List (Option ℚ)) (i : Nat)
    (hi : i < xs.length) (hw : w ≤ i + 1) :
    (rollingMean w xs)[i]? = some (
      if ((List.range w).map fun j => xs.getD (i + 1 - w + j) none).all Option.isSome
      then some ((((List.range w).map fun j =>
        xs.getD (i + 1 - w + j) none).reduceOption).sum / (w : ℚ))
      else none) := by
  have hslice : (xs.drop (i + 1 - w)).take w =
      (List.range w).map fun j => xs.getD (i + 1 - w + j) none :=
    slice_eq_map_getD xs (i + 1 - w) w (by omega)
  rw [rollingMean, List.getElem?_map, List.getElem?_range hi]
  show some (if i + 1 < w then none
    else if ((xs.drop (i + 1 - w)).take w).all Option.isSome
      then some ((((xs.drop (i + 1 - w)).take w).reduceOption).sum / (w : ℚ))
      else none) = _
  rw [if_neg (show ¬ i + 1 < w by omega), hslice]

theorem selectFeatures_all_isSome (X : List (String × ℚ)) (req : List String) :
    (buildPredictionInput X req).all Option.isSome = true := by
  rw [buildPredictionInput, selectFeatures]
  apply List.all_eq_true.mpr
  intro o ho
  obtain ⟨f, hf, rfl⟩ := List.mem_map.mp ho
  exact addMissing_isSome req X f hf

theorem dropnaSubset_map_some {α β : Type} (rows : List (α × β)) :
    dropnaSubset (rows.map fun r => (r.1, some r.2)) = rows := by
  induction rows with
  | nil => rfl
  | cons h t ih => simp [dropnaSubset, List.filterMap] at ih ⊢; exact ih

theorem shiftMinusOne_length (prec : List ℚ) (h : prec ≠ []) :
    (shiftMinusOne prec).length = prec.length := by
  have h1 : 1 ≤ prec.length := List.length_pos.mpr h
  simp [shiftMinusOne]
  omega

/-! ## Claim theorems -/

/-- C8: the record validator parser maps the Spanish decimal string 10,5 to
10.5, the sentinel Ip (case-insensitive) to 0.0, the unparseable string
not-a-number to missing, None and the empty string to missing, and on any
input yields either a number or the missing marker. -/
theorem C8_parse_float_spanish_cases :
    parse_float_spanish (.pyStr "10,5") = some (21 / 2) ∧
    parse_float_spanish (.pyStr "Ip") = some 0 ∧
    parse_float_spanish (.pyStr "ip") = some 0 ∧
    parse_float_spanish (.pyStr "IP") = some 0 ∧
    parse_float_spanish (.pyStr " Ip ") = some 0 ∧
    parse_float_spanish (.pyStr "not-a-number") = none ∧
    parse_float_spanish .pyNone = none ∧
    parse_float_spanish (.pyStr "") = none ∧
    (∀ v : PyValue, parse_float_spanish v = none ∨
      ∃ q : ℚ, parse_float_spanish v = some q) := by
  refine ⟨?_, ?_, ?_, ?_, ?_, ?_, rfl, rfl, ?_⟩
  · simp +decide [parse_float_spanish, stripWs, replaceCommaDot, pyFloatCore,
      parseUnsignedDec, splitDigits, parseExpPart, digitsVal, applyExp,
      List.takeWhile, List.dropWhile]
    norm_num
  · simp +decide [parse_float_spanish, stripWs, replaceCommaDot, List.dropWhile]
  · simp +decide [parse_float_spanish, stripWs, replaceCommaDot, List.dropWhile]
  · simp +decide [parse_float_spanish, stripWs, replaceCommaDot, List.dropWhile]
  · simp +decide [parse_float_spanish, stripWs, replaceCommaDot, List.dropWhile]
  · simp +decide [parse_float_spanish, stripWs, replaceCommaDot, pyFloatCore,
      parseUnsignedDec, splitDigits, parseExpPart, digitsVal,
      List.takeWhile, List.dropWhile]
  · intro v
    cases h : parse_float_spanish v with
    | none => exact Or.inl rfl
    | some q => exact Or.inr ⟨q, rfl⟩

/-- C2 counterexample: the rain classifier persists the bare booster, so
its artifact carries no feature-name list and the inference loader cannot
recover one; the claim that every trained target persists its feature
names is false for the rain target. -/
theorem C2_counterexample :
    artifactFeatureNames (rain_persist ⟨0⟩) = none ∧
    loadForInference (rain_persist ⟨0⟩) = none :=
  ⟨rfl, rfl⟩

/-- C2 amended: every target persisted through the shared base trainer
stores the model together with its exact ordered feature-name list and
reloading recovers that identical list, but the rain classifier persists
only the bare model, which both inference loaders skip. -/
theorem C2_amended_persistence (m : LightGBMBooster) (fs : List String) :
    artifactFeatureNames (save_to_disk m fs) = some fs ∧
    loadForInference (save_to_disk m fs) = some (m, fs) ∧
    artifactFeatureNames (rain_persist m) = none ∧
    loadForInference (rain_persist m) = none :=
  ⟨rfl, rfl, rfl, rfl⟩

/-- C1 counterexample: on the precipitation series [0.0, 0.3, 0.05, 5.0]
the rain trainer produces the target column [1, 0, 1, 0] — not
[False, False, True] — and keeps all four rows, because the comparison of
the missing shifted cell yields False, the integer cast removes the
missing marker, and the subsequent drop of missing targets removes
nothing. -/
theorem C1_counterexample :
    rainTargetColumn [0, 3 / 10, 1 / 20, 5] = [1, 0, 1, 0] ∧
    (rainSupervised [0, 3 / 10, 1 / 20, 5]).length = 4 := by
  constructor
  · norm_num [rainTargetColumn, shiftMinusOne, rainThreshold]
  · decide

/-- C1 amended: for a nonempty per-station precipitation series the target
at row t equals (prec at t+1 is above 0.1 mm), coded 1 or 0; the last row
of the station is retained with target 0 rather than excluded, and every
row of the series survives into the supervised examples. -/
theorem C1_amended_target_construction (prec : List ℚ) (hne : prec ≠ []) :
    (rainSupervised prec).length = prec.length ∧
    (∀ i v, prec[i + 1]? = some v →
      (rainTargetColumn prec)[i]? = some (if rainThreshold < v then 1 else 0)) ∧
    (rainTargetColumn prec).getLast? = some 0 := by
  have hlen1 : 1 ≤ prec.length := List.length_pos.mpr hne
  have hshift := shiftMinusOne_length prec hne
  have htlen : (rainTargetColumn prec).length = prec.length := by
    simp [rainTargetColumn, hshift]
  refine ⟨?_, ?_, ?_⟩
  · rw [rainSupervised, dropnaSubset_map_some, List.length_zip, htlen]
    omega
  · intro i v hv
    have hi : i + 1 < prec.length := (List.getElem?_eq_some_iff.mp hv).1
    have hsh : (shiftMinusOne prec)[i]? = some (some v) := by
      rw [shiftMinusOne]
      rw [List.getElem?_append_left (by simp; omega)]
      rw [List.getElem?_map, List.getElem?_drop]
      rw [Nat.add_comm 1 i]
      rw [hv]
      rfl
    rw [rainTargetColumn, List.getElem?_map, hsh]
    rfl
  · rw [rainTargetColumn, List.getLast?_map, shiftMinusOne]
    have hmin : min 1 prec.length = 1 := by omega
    rw [hmin]
    rw [List.getLast?_append_of_ne_nil _ (by simp)]
    rfl

/-- C10: after the per-column imputation chain ending in ffill, bfill and
the fixed default, no cell of any continuous column is missing, and the
precipitation and wind-direction columns are likewise fully dense; the
default is 1013.0 for pressure and 0.0 otherwise. -/
theorem C10_full_density :
    (∀ (doy month : List Nat) (fv : ℚ) (xs : List (Option ℚ)),
      (imputeColumn doy month fv xs).vals.all Option.isSome = true) ∧
    (∀ prec om : List (Option ℚ),
      (precPipeline prec om).vals.all Option.isSome = true) ∧
    (∀ dir : List (Option String),
      (dirPipeline dir).vals.all Option.isSome = true) ∧
    fillValFor "presion" = 1013 ∧ fillValFor "tmed" = 0 ∧
    fillValFor "prec" = 0 ∧ fillValFor "sol" = 0 := by
  have hfill : ∀ (v : ℚ) (xs : List (Option ℚ)),
      (fillnaConst v xs).all Option.isSome = true := by
    intro v xs
    rw [fillnaConst, List.all_map]
    exact List.all_eq_true.mpr fun _ _ => rfl
  exact ⟨fun _ _ fv xs => hfill fv _, fun _ _ => hfill 0 _, fun _ => hfill 0 _,
    rfl, rfl, rfl, rfl⟩

/-- C1 witness: the amended target-construction theorem instantiated at the
concrete series [0.0, 0.3, 0.05, 5.0]. -/
theorem C1_witness :
    (([0, 3 / 10, 1 / 20, 5] : List ℚ) ≠ []) ∧
    (rainSupervised [0, 3 / 10, 1 / 20, 5]).length =
      ([0, 3 / 10, 1 / 20, 5] : List ℚ).length :=
  ⟨by decide, (C1_amended_target_construction [0, 3 / 10, 1 / 20, 5] (by decide)).1⟩

/-- C9: at inference time every expected feature name absent from the
frame is added with the neutral default 0, present features keep their
values, and the final column selection resolves every expected name, so
model.predict receives a complete input and no KeyError can arise. -/
theorem C9_missing_feature_padding (X : List (String × ℚ)) (req : List String) :
    (buildPredictionInput X req).length = req.length ∧
    (buildPredictionInput X req).all Option.isSome = true ∧
    (∀ f, f ∈ req → X.lookup f = none →
      (addMissingFeatures X req).lookup f = some 0) ∧
    (∀ f v, X.lookup f = some v →
      (addMissingFeatures X req).lookup f = some v) := by
  exact ⟨by simp [buildPredictionInput, selectFeatures],
    selectFeatures_all_isSome X req,
    fun f hf h => addMissing_fills req X f hf h,
    fun f v hv => addMissing_preserve req X f v hv⟩

/-- C9 witness: the padding theorem instantiated at a frame holding only
the feature a while the model expects a and b. -/
theorem C9_witness :
    ("b" ∈ ["a", "b"]) ∧
    ([("a", (1 : ℚ))].lookup "b" = none) ∧
    (addMissingFeatures [("a", (1 : ℚ))] ["a", "b"]).lookup "b" = some 0 ∧
    (buildPredictionInput [("a", (1 : ℚ))] ["a", "b"]).all Option.isSome = true :=
  ⟨by decide, by simp [List.lookup],
   (C9_missing_feature_padding [("a", (1 : ℚ))] ["a", "b"]).2.2.1 "b" (by decide)
     (by simp [List.lookup]),
   (C9_missing_feature_padding [("a", (1 : ℚ))] ["a", "b"]).2.1⟩

/-- C3 counterexample: a precipitation cell missing in the primary source
and filled from the secondary source carries the flag 0, and a non-numeric
wind-direction cell that is coerced to missing and then filled carries the
flag 0, because the precipitation flag is taken after the hybrid fill and
the direction flag before the coercion; the claim that every imputed cell
carries a true flag is false at these inputs. -/
theorem C3_counterexample :
    (precPipeline [none] [some 2]).est = [false] ∧
    (precPipeline [none] [some 2]).vals = [some 2] ∧
    (dirPipeline [some "5", some "VRB"]).est = [false, false] ∧
    (dirPipeline [some "5", some "VRB"]).vals = [some 5, some 5] := by
  refine ⟨rfl, rfl, rfl, ?_⟩
  simp +decide [dirPipeline, pyFloatOfString, stripWs, pyFloatCore, parseUnsignedDec,
    splitDigits, parseExpPart, digitsVal, applyExp, ffill, ffillGo, bfill, fillnaConst,
    List.takeWhile, List.dropWhile]

/-- C3 amended: for the nine continuous variables the estimation flag is
the missingness mask taken before any fill — observed cells keep flag 0
and their value, originally missing cells get flag 1; the precipitation
flag is taken only after the hybrid secondary-source fill, so a cell
filled from the secondary source carries flag 0 and keeps the secondary
value; the wind-direction flag is taken before the numeric coercion, so a
non-numeric cell carries flag 0. -/
theorem C3_amended_estimation_flags :
    (∀ (doy month : List Nat) (fv : ℚ) (xs : List (Option ℚ)),
      doy.length = xs.length → month.length = xs.length →
      (∀ (i : Nat) (v : ℚ), xs[i]? = some (some v) →
        (imputeColumn doy month fv xs).est[i]? = some false ∧
        (imputeColumn doy month fv xs).vals[i]? = some (some v)) ∧
      (∀ i : Nat, xs[i]? = some none →
        (imputeColumn doy month fv xs).est[i]? = some true)) ∧
    (∀ (prec om : List (Option ℚ)) (i : Nat) (v : ℚ),
      prec[i]? = some none → om[i]? = some (some v) →
      (precPipeline prec om).est[i]? = some false ∧
      (precPipeline prec om).vals[i]? = some (some v)) ∧
    (∀ (dir : List (Option String)) (i : Nat) (s : String),
      dir[i]? = some (some s) →
      (dirPipeline dir).est[i]? = some false) := by
  refine ⟨?_, ?_, ?_⟩
  · intro doy month fv xs hd hm
    constructor
    · intro i v h
      have hi : i < xs.length := (List.getElem?_eq_some_iff.mp h).1
      constructor
      · simp only [imputeColumn]
        rw [List.getElem?_map, h]
        rfl
      · simp only [imputeColumn]
        apply fillnaConst_preserve
        apply bfill_preserve
        apply ffillGo_preserve
        split
        · apply climFill_preserve _ _ _ _ ?_ (by omega)
          apply climFill_preserve _ _ _ _ ?_ (by omega)
          exact interp_preserve 7 xs i v h
        · exact interp_preserve 7 xs i v h
    · intro i h
      simp only [imputeColumn]
      rw [List.getElem?_map, h]
      rfl
  · intro prec om i v hp ho
    have hcell : (fillnaFrom prec om)[i]? = some (some v) := by
      rw [fillnaFrom, List.getElem?_zipWith]
      rw [hp, ho]
      rfl
    constructor
    · simp only [precPipeline]
      rw [List.getElem?_map, hcell]
      rfl
    · simp only [precPipeline]
      exact fillnaConst_preserve 0 _ i v hcell
  · intro dir i s h
    simp only [dirPipeline]
    rw [List.getElem?_map, h]
    rfl

/-- C3 witness: the amended flag theorem instantiated at a two-day station
column with one observed and one missing cell, and at a precipitation cell
filled from the secondary source. -/
theorem C3_witness :
    ([7, 8] : List Nat).length = ([some (5 : ℚ), none]).length ∧
    ([some (5 : ℚ), none][0]? = some (some 5)) ∧
    ([some (5 : ℚ), none][1]? = some none) ∧
    (imputeColumn [7, 8] [1, 1] 0 [some (5 : ℚ), none]).est[0]? = some false ∧
    (imputeColumn [7, 8] [1, 1] 0 [some (5 : ℚ), none]).vals[0]? = some (some 5) ∧
    (imputeColumn [7, 8] [1, 1] 0 [some (5 : ℚ), none]).est[1]? = some true ∧
    (precPipeline [none] [some 2]).est[0]? = some false := by
  obtain ⟨h1, h2, h3⟩ := C3_amended_estimation_flags
  have ha := h1 [7, 8] [1, 1] 0 [some (5 : ℚ), none] (by decide) (by decide)
  exact ⟨by decide, rfl, rfl, (ha.1 0 5 rfl).1, (ha.1 0 5 rfl).2, ha.2 1 rfl,
    (h2 [none] [some 2] 0 2 rfl rfl).1⟩

/-- C6: lag and rolling features are strictly causal and group-isolated:
the output series for a station is a function of that station series
alone; a lag-k cell at row i equals the raw cell at row i-k and is missing
when fewer than k prior rows exist; a rolling-w cell at row i is the mean
of exactly the cells at rows i-w+1 .. i (missing if any of them is); and
two series agreeing up to row i produce identical lag and rolling cells at
row i, so no feature reads a row after i. -/
theorem C6_causal_lags_and_rolling (fr : GroupedColumn) (g : String)
    (xs : List (Option ℚ)) (k w : Nat) (hmem : (g, xs) ∈ fr) (_hw : 0 < w) :
    ((g, seriesShift k xs) ∈ create_lags_frame k fr ∧
     (g, rollingMean w xs) ∈ create_rolling_frame w fr) ∧
    (∀ i : Nat, i < xs.length →
      (seriesShift k xs)[i]? = some (if k ≤ i then xs.getD (i - k) none else none)) ∧
    (∀ i : Nat, i < xs.length → w ≤ i + 1 →
      (rollingMean w xs)[i]? = some (
        if ((List.range w).map fun j => xs.getD (i + 1 - w + j) none).all Option.isSome
        then some ((((List.range w).map fun j =>
          xs.getD (i + 1 - w + j) none).reduceOption).sum / (w : ℚ))
        else none)) ∧
    (∀ (ys : List (Option ℚ)) (i : Nat), i < xs.length → i < ys.length →
      xs.take (i + 1) = ys.take (i + 1) →
      (seriesShift k xs)[i]? = (seriesShift k ys)[i]? ∧
      (rollingMean w xs)[i]? = (rollingMean w ys)[i]?) := by
  refine ⟨⟨?_, ?_⟩, ?_, ?_, ?_⟩
  · exact List.mem_map_of_mem (fun p => (p.1, seriesShift k p.2)) hmem
  · exact List.mem_map_of_mem (fun p => (p.1, rollingMean w p.2)) hmem
  · intro i hi
    exact seriesShift_getElem k xs i hi
  · intro i hi hwle
    exact rollingMean_getElem w xs i hi hwle
  · intro ys i hix hiy hagree
    have hcell : ∀ j, j ≤ i → xs[j]? = ys[j]? := take_agree_getElem? xs ys i hagree
    have hgetD : ∀ j, j ≤ i → xs.getD j none = ys.getD j none := by
      intro j hj
      rw [List.getD_eq_getElem?_getD, List.getD_eq_getElem?_getD, hcell j hj]
    constructor
    · rw [seriesShift_getElem k xs i hix, seriesShift_getElem k ys i hiy]
      by_cases hk : k ≤ i
      · rw [hgetD (i - k) (by omega)]
      · simp [hk]
    · by_cases hwi : w ≤ i + 1
      · rw [rollingMean_getElem w xs i hix hwi, rollingMean_getElem w ys i hiy hwi]
        have hmapeq : ((List.range w).map fun j => xs.getD (i + 1 - w + j) none) =
            (List.range w).map fun j => ys.getD (i + 1 - w + j) none := by
          apply List.map_congr_left
          intro j hj
          have hjw : j < w := List.mem_range.mp hj
          exact hgetD (i + 1 - w + j) (by omega)
        rw [hmapeq]
      · have hx : (rollingMean w xs)[i]? = some none := by
          rw [rollingMean, List.getElem?_map, List.getElem?_range hix]
          show some (if i + 1 < w then none else _) = some none
          rw [if_pos (by omega)]
        have hy : (rollingMean w ys)[i]? = some none := by
          rw [rollingMean, List.getElem?_map, List.getElem?_range hiy]
          show some (if i + 1 < w then none else _) = some none
          rw [if_pos (by omega)]
        rw [hx, hy]

theorem nodup_filter_length_le_one {β : Type} (om : List (Nat × β))
    (h : (om.map Prod.fst).Nodup) (d : Nat) :
    (om.filter fun r => r.1 = d).length ≤ 1 := by
  induction om with
  | nil => simp
  | cons r t ih =>
    rw [List.map_cons, List.nodup_cons] at h
    by_cases hd : r.1 = d
    · have hnil : t.filter (fun r => decide (r.1 = d)) = [] := by
        rw [List.filter_eq_nil_iff]
        intro a ha
        have : a.1 ∈ t.map Prod.fst := List.mem_map_of_mem Prod.fst ha
        simp only [decide_eq_true_eq]
        intro had
        have hra : r.1 = a.1 := by rw [hd, ← had]
        exact h.1 (by rw [hra]; exact this)
      simp [List.filter_cons, hd, hnil]
    · simp only [List.filter_cons, decide_eq_true_eq, hd, if_false]
      exact ih h.2

theorem leftJoin_map_fst {α β : Type} (om : List (Nat × β))
    (hb : ∀ d, (om.filter fun r => r.1 = d).length ≤ 1) :
    ∀ left : List (Nat × α),
      (leftJoinByDate left om).map Prod.fst = left.map Prod.fst := by
  intro left
  induction left with
  | nil => rfl
  | cons l t ih =>
    have hblock : leftJoinByDate (l :: t) om =
        (let ms := om.filter fun r => r.1 = l.1
         if ms.isEmpty then [(l.1, l.2, none)]
         else ms.map fun r => (l.1, l.2, some r.2)) ++ leftJoinByDate t om := by
      simp [leftJoinByDate]
    rw [hblock, List.map_append, ih]
    by_cases hms : (om.filter fun r => r.1 = l.1).isEmpty
    · simp [hms]
    · have hlen : (om.filter fun r => r.1 = l.1).length = 1 := by
        have h1 := hb l.1
        have h2 : (om.filter fun r => r.1 = l.1).length ≠ 0 := by
          intro h0
          exact hms (List.isEmpty_iff.mpr (List.length_eq_zero.mp h0))
        omega
      obtain ⟨m, hm⟩ := List.length_eq_one.mp hlen
      simp [hms, hm]

theorem gap_length (a b : ℚ) (g : Nat) :
    (some a :: (List.replicate g (none : Option ℚ) ++ [some b])).length = g + 2 := by
  simp

theorem gap_getD_zero (a b : ℚ) (g : Nat) :
    (some a :: (List.replicate g (none : Option ℚ) ++ [some b])).getD 0 none = some a := rfl

theorem gap_getD_mid (a b : ℚ) (g i : Nat) (h1 : 1 ≤ i) (h2 : i ≤ g) :
    (some a :: (List.replicate g (none : Option ℚ) ++ [some b])).getD i none = none := by
  obtain ⟨j, rfl⟩ : ∃ j, i = j + 1 := ⟨i - 1, by omega⟩
  rw [List.getD_eq_getElem?_getD, List.getElem?_cons_succ]
  rw [List.getElem?_append_left (by simp; omega)]
  rw [List.getElem?_replicate]
  rw [if_pos (show j < g by omega)]
  rfl

theorem gap_getD_last (a b : ℚ) (g : Nat) :
    (some a :: (List.replicate g (none : Option ℚ) ++ [some b])).getD (g + 1) none
      = some b := by
  rw [List.getD_eq_getElem?_getD, List.getElem?_cons_succ]
  rw [List.getElem?_append_right (by simp)]
  simp

theorem gap_prevAnchor (a b : ℚ) (g : Nat) :
    ∀ i, i ≤ g →
      prevAnchor (some a :: (List.replicate g (none : Option ℚ) ++ [some b])) i
        = some (0, a) := by
  intro i
  induction i with
  | zero => intro _; rfl
  | succ j ih =>
    intro hle
    rw [prevAnchor, List.range_succ, List.reverse_append]
    simp only [List.reverse_cons, List.reverse_nil, List.nil_append, List.cons_append,
      List.singleton_append]
    rw [List.findSome?_cons]
    rw [gap_getD_mid a b g (j + 1) (by omega) hle]
    exact ih (by omega)

theorem gap_nextAnchor_aux (a b : ℚ) (g : Nat) :
    ∀ t, t ≤ g →
      nextAnchor (some a :: (List.replicate g (none : Option ℚ) ++ [some b])) (g + 1 - t)
        = some (g + 1, b) := by
  intro t
  induction t with
  | zero =>
    intro _
    rw [nextAnchor, gap_length]
    rw [show g + 2 - (g + 1 - 0) = 1 by omega, show g + 1 - 0 = g + 1 by omega]
    rw [show List.range' (g + 1) 1 = [g + 1] from rfl]
    rw [List.findSome?_cons]
    rw [gap_getD_last a b g]
  | succ t ih =>
    intro hle
    rw [nextAnchor, gap_length]
    rw [show g + 2 - (g + 1 - (t + 1)) = t + 2 by omega]
    rw [show List.range' (g + 1 - (t + 1)) (t + 2)
        = (g + 1 - (t + 1)) :: List.range' (g + 1 - (t + 1) + 1) (t + 1) from rfl]
    rw [List.findSome?_cons]
    rw [gap_getD_mid a b g (g + 1 - (t + 1)) (by omega) (by omega)]
    have hnext := ih (by omega)
    rw [nextAnchor, gap_length] at hnext
    rw [show g + 2 - (g + 1 - t) = t + 1 by omega] at hnext
    rw [show g + 1 - (t + 1) + 1 = g + 1 - t by omega]
    exact hnext

theorem gap_interpValue (a b : ℚ) (g L i : Nat) (h1 : 1 ≤ i) (h2 : i ≤ g) :
    interpValue L (some a :: (List.replicate g (none : Option ℚ) ++ [some b])) i =
      if i ≤ L then some (a + (b - a) * (i : ℚ) / ((g : ℚ) + 1)) else none := by
  rw [interpValue, gap_getD_mid a b g i h1 h2]
  rw [gap_prevAnchor a b g i h2]
  have hnext := gap_nextAnchor_aux a b g (g + 1 - i) (by omega)
  rw [show g + 1 - (g + 1 - i) = i by omega] at hnext
  rw [hnext]
  simp only [Nat.sub_zero, Nat.cast_zero, sub_zero, Nat.cast_add, Nat.cast_one]

theorem gap_interpValue_zero (a b : ℚ) (g : Nat) (L : Nat) :
    interpValue L (some a :: (List.replicate g (none : Option ℚ) ++ [some b])) 0
      = some a := rfl

theorem gap_interpValue_last (a b : ℚ) (g : Nat) (L : Nat) :
    interpValue L (some a :: (List.replicate g (none : Option ℚ) ++ [some b])) (g + 1)
      = some b := by
  rw [interpValue, gap_getD_last a b g]

theorem calendarRange_pairwise (start days : Nat) :
    (calendarRange start days).Pairwise (· < ·) := by
  rw [calendarRange, List.pairwise_map]
  exact (List.pairwise_lt_range days).imp (by omega)

/-- C4 counterexample: an interior run of 8 consecutive missing days
(between observed values 0 and 9) does receive interpolated values — the
first 7 cells of the run are filled on the line between the bounds and
only the eighth stays missing — refuting the claim that a gap longer than
7 days receives no interpolated values at all. -/
theorem C4_counterexample :
    interpolateLimit 7
      [some 0, none, none, none, none, none, none, none, none, some 9] =
      [some 0, some 1, some 2, some 3, some 4, some 5, some 6, some 7, none,
        some 9] := by
  norm_num [interpolateLimit, interpValue, prevAnchor, nextAnchor, List.range_succ,
    List.range', List.findSome?]

/-- C4 amended: the bounded linear interpolation fills, inside a run of g
consecutive missing cells between observed bounds, exactly the first
min(g, 7) cells, each on the straight line between the bounds; a run of at
most 7 is therefore filled completely (in particular [10, NaN, NaN, 13]
becomes [10, 11, 12, 13]) while a longer run keeps its cells beyond the
seventh missing for the climatological fill. -/
theorem C4_amended_interpolation (a b : ℚ) (g : Nat) :
    interpolateLimit 7 (some a :: (List.replicate g (none : Option ℚ) ++ [some b])) =
      some a :: (((List.range g).map fun k : Nat =>
        if k + 1 ≤ 7 then some (a + (b - a) * ((k : ℚ) + 1) / ((g : ℚ) + 1)) else none)
        ++ [some b]) ∧
    interpolateLimit 7 [some 10, none, none, some 13] =
      [some 10, some 11, some 12, some 13] := by
  constructor
  · rw [interpolateLimit, gap_length]
    rw [List.range_succ, List.map_append, List.range_succ_eq_map, List.map_cons]
    rw [gap_interpValue_zero, List.map_map]
    simp only [List.map_cons, List.map_nil]
    rw [gap_interpValue_last, List.cons_append]
    have hmap : (List.range g).map
        (interpValue 7 (some a :: (List.replicate g (none : Option ℚ) ++ [some b]))
          ∘ Nat.succ) =
        (List.range g).map fun k : Nat =>
          if k + 1 ≤ 7 then some (a + (b - a) * ((k : ℚ) + 1) / ((g : ℚ) + 1))
          else none := by
      apply List.map_congr_left
      intro k hk
      have hkg : k < g := List.mem_range.mp hk
      show interpValue 7 _ (k + 1) = _
      rw [gap_interpValue a b g 7 (k + 1) (by omega) (by omega)]
      norm_num
    rw [hmap]
  · norm_num [interpolateLimit, interpValue, prevAnchor, nextAnchor, List.range_succ,
      List.range', List.findSome?]

/-- C5: after deduplication, sorting, reindexing onto the global calendar
and the left-join with a secondary frame carrying at most one row per date
(which holds for the client output, whose dates form the strictly
increasing progression omFetchDates), the per-station date column is
exactly the calendar: one row per day, days rows in total, strictly
ascending, no duplicates. -/
theorem C5_calendar_complete {α β : Type} (raw : List (Nat × α))
    (om : List (Nat × β)) (start days : Nat)
    (hnodup : (om.map Prod.fst).Nodup) :
    processStationDates raw om (calendarRange start days) =
      calendarRange start days ∧
    (processStationDates raw om (calendarRange start days)).length = days ∧
    (processStationDates raw om (calendarRange start days)).Pairwise (· < ·) ∧
    (processStationDates raw om (calendarRange start days)).Nodup ∧
    (∀ s2 n : Nat, (omFetchDates s2 n).Nodup) := by
  have hre : ∀ (γ : Type) (rows : List (Nat × γ)) (cal : List Nat),
      (reindexOnto cal rows).map Prod.fst = cal := by
    intro γ rows cal
    simp [reindexOnto, List.map_map, Function.comp_def]
  have hmain : processStationDates raw om (calendarRange start days) =
      calendarRange start days := by
    rw [processStationDates]
    by_cases hom : om.isEmpty
    · rw [if_pos hom]
      exact hre _ _ _
    · rw [if_neg hom]
      rw [leftJoin_map_fst om (nodup_filter_length_le_one om hnodup)]
      exact hre _ _ _
  have hpair := calendarRange_pairwise start days
  refine ⟨hmain, ?_, ?_, ?_, ?_⟩
  · rw [hmain]
    simp [calendarRange]
  · rw [hmain]
    exact hpair
  · rw [hmain]
    exact List.Pairwise.imp Nat.ne_of_lt hpair
  · intro s2 n
    have := calendarRange_pairwise s2 n
    rw [calendarRange] at this
    rw [omFetchDates]
    exact List.Pairwise.imp Nat.ne_of_lt this

/-- C5 witness: the calendar-completeness theorem instantiated at a
station with a duplicated date and a date outside the range, and a
one-row secondary frame. -/
theorem C5_witness :
    ((([(2, (7 : ℚ))] : List (Nat × ℚ)).map Prod.fst).Nodup) ∧
    processStationDates [(3, (1 : ℚ)), (3, 2), (9, 5)] [(2, (7 : ℚ))]
      (calendarRange 1 4) = calendarRange 1 4 :=
  ⟨by decide,
   (C5_calendar_complete [(3, (1 : ℚ)), (3, 2), (9, 5)] [(2, (7 : ℚ))] 1 4
     (by decide)).1⟩

/-- C6 witness: the causality theorem instantiated at a two-station frame,
lag 1 and window 2, including two series that agree up to row 1 but differ
afterwards. -/
theorem C6_witness :
    (("A", [some (1 : ℚ), some 2]) ∈
      ([("A", [some (1 : ℚ), some 2]), ("B", [some 3])] : GroupedColumn)) ∧
    (0 : Nat) < 2 ∧ (1 : Nat) < ([some (1 : ℚ), some 2]).length ∧
    ("A", seriesShift 1 [some (1 : ℚ), some 2]) ∈
      create_lags_frame 1 [("A", [some (1 : ℚ), some 2]), ("B", [some 3])] ∧
    (seriesShift 1 [some (1 : ℚ), some 2])[1]? =
      some (if 1 ≤ 1 then ([some (1 : ℚ), some 2]).getD (1 - 1) none else none) ∧
    (rollingMean 2 [some (1 : ℚ), some 2])[1]? =
      (rollingMean 2 [some (1 : ℚ), some 2, some 9])[1]? := by
  have h := C6_causal_lags_and_rolling
    [("A", [some (1 : ℚ), some 2]), ("B", [some 3])] "A"
    [some (1 : ℚ), some 2] 1 2 (by decide) (by decide)
  exact ⟨by decide, by decide, by decide, h.1.1, h.2.1 1 (by decide),
    (h.2.2.2 [some (1 : ℚ), some 2, some 9] 1 (by decide) (by decide) rfl).2⟩

/-- C7: consolidation of a station-year leaves every partial file in place
when the write of the merged file fails, and a partial file disappears
only in runs whose merged file was successfully written. -/
theorem C7_consolidation_atomic (s : StoreState) :
    (consolidate_year false s).partials = s.partials ∧
    (∀ f, f ∈ s.partials → f ∉ (consolidate_year true s).partials →
      ∃ rs, (consolidate_year true s).merged = MergedFile.ok rs) := by
  constructor
  · rw [consolidate_year]
    split_ifs with h1 h2 h3
    · rfl
    · rfl
    · cases h3
    · rfl
  · intro f hf hnot
    rw [consolidate_year] at hnot ⊢
    split_ifs at hnot ⊢ with h1 h2 h3
    · exact absurd hf hnot
    · exact absurd hf hnot
    · exact ⟨_, rfl⟩
    · exact absurd rfl h3

/-- C7 witness: the consolidation theorem instantiated at a folder holding
one readable and one unreadable partial file; the readable one is deleted
and the merged file was written. -/
theorem C7_witness :
    samplePartA ∈ sampleStore.partials ∧
    samplePartA ∉ (consolidate_year true sampleStore).partials ∧
    (consolidate_year false sampleStore).partials = sampleStore.partials ∧
    ∃ rs, (consolidate_year true sampleStore).merged = MergedFile.ok rs :=
  ⟨by decide, by decide, (C7_consolidation_atomic sampleStore).1,
   (C7_consolidation_atomic sampleStore).2 samplePartA (by decide) (by decide)⟩
